import Mathlib

/-!
Shallow embedding of the multi-source hate-crime data integrator
(`data-tools/multi_source_integrator.py`, `data-tools/process_manual_adl_data.py`,
`data-tools/download_fbi_data.py`) and proofs about its deduplication and
normalization behaviour.

Text is modelled over `String`/`List Char`; Python `str.upper`/`str.lower`/
`str.strip` are modelled by their ASCII action, which is exact on the data the
program manipulates.  Machine floats appear in the source only inside the
external geodesic-distance call and the fuzzy-similarity library; both are
abstracted behind the `Ext` capability record, exactly as §9 of the design
notes prescribes for the similarity function.
-/

namespace JHT

/-! ### ASCII character and string helpers (Python str semantics) -/

/-- ASCII uppercase mapping of a single character, the action of Python
`str.upper` on ASCII text. -/
def upChar (c : Char) : Char :=
  if 97 ≤ c.toNat ∧ c.toNat ≤ 122 then Char.ofNat (c.toNat - 32) else c

/-- ASCII lowercase mapping of a single character, the action of Python
`str.lower` on ASCII text. -/
def lowChar (c : Char) : Char :=
  if 65 ≤ c.toNat ∧ c.toNat ≤ 90 then Char.ofNat (c.toNat + 32) else c

/-- Characters removed by Python `str.strip`: space, tab, newline, carriage
return, vertical tab, form feed. -/
def isSpaceCh (c : Char) : Bool :=
  c.toNat == 32 || c.toNat == 9 || c.toNat == 10 || c.toNat == 13 ||
    c.toNat == 11 || c.toNat == 12

def upperL (s : List Char) : List Char := s.map upChar

def lowerL (s : List Char) : List Char := s.map lowChar

/-- Python `str.strip`: drop whitespace from both ends. -/
def trimL (s : List Char) : List Char :=
  ((s.dropWhile isSpaceCh).reverse.dropWhile isSpaceCh).reverse

/-- Decides whether the first list is a prefix of the second. -/
def isPrefixL : List Char → List Char → Bool
  | [], _ => true
  | _ :: _, [] => false
  | p :: ps, c :: cs => if p = c then isPrefixL ps cs else false

/-- Python substring containment `pat in s` (second argument is the pattern). -/
def containsL : List Char → List Char → Bool
  | [], p => isPrefixL p []
  | c :: cs, p => isPrefixL p (c :: cs) || containsL cs p

def upperS (s : String) : String := String.mk (upperL s.data)

def lowerS (s : String) : String := String.mk (lowerL s.data)

def trimS (s : String) : String := String.mk (trimL s.data)

def containsS (s pat : String) : Bool := containsL s.data pat.data

/-! ### Calendar dates

The integrator stores dates as `MM/DD/YYYY` strings produced by
`strftime` as `MM/DD/YYYY` and re-parses them with `pd.to_datetime`.  A parsed
date is a calendar triple; an unparseable/missing date is `none`. -/

structure Date where
  month : ℕ
  day : ℕ
  year : ℕ
deriving DecidableEq, Repr

def isLeap (y : ℕ) : Bool := (y % 4 == 0 && y % 100 != 0) || y % 400 == 0

/-- Days in the months strictly before month `m` of a non-leap year. -/
def cumMonth : ℕ → ℕ
  | 1 => 0
  | 2 => 31
  | 3 => 59
  | 4 => 90
  | 5 => 120
  | 6 => 151
  | 7 => 181
  | 8 => 212
  | 9 => 243
  | 10 => 273
  | 11 => 304
  | 12 => 334
  | _ => 365

/-- Proleptic-Gregorian day count; differences of `dayNum` equal the `.days`
field of the pandas timestamp difference used by the source. -/
def dayNumN (d : Date) : ℕ :=
  365 * (d.year - 1) + (d.year - 1) / 4 - (d.year - 1) / 100 + (d.year - 1) / 400
    + cumMonth d.month + (if isLeap d.year ∧ 2 < d.month then 1 else 0) + d.day

def dayNum (d : Date) : ℤ := (dayNumN d : ℤ)

/-- Sort key realising lexicographic order of the zero-padded `MM/DD/YYYY`
rendering that `df.sort_values` sorts the date column by: month, day, year.
For the in-range fields produced by `strftime` the zero-padded string order
and this numeric order coincide. -/
def dkey (d : Date) : ℕ := (d.month * 100 + d.day) * 10000 + d.year

/-! ### Canonical records -/

/-- Latitude/longitude cell content as seen by `float(...)` in the source:
absent column, a value `float` cannot parse, or a parsed number. -/
inductive Coord where
  | missing : Coord
  | unparsable : Coord
  | num : ℚ → Coord
deriving DecidableEq, Repr

/-- Result of `float(incident.get(col, 0))`: an absent column defaults to `0`,
an unparsable value raises (modelled `none`), a number parses to itself. -/
def floatOf : Coord → Option ℚ
  | Coord.missing => some 0
  | Coord.unparsable => none
  | Coord.num q => some q

/-- Canonical record of the unified schema (one row of the integrated table). -/
structure Record where
  date : Option Date := none
  state : String := ""
  county : String := ""
  city : String := ""
  latitude : Coord := Coord.missing
  longitude : Coord := Coord.missing
  bias_motivation : Option String := none
  bias_motivation_cleaned : String := ""
  source : String := ""
  incident_id : String := ""
  description : String := ""
  verified : String := ""
  incidents_corrected : ℚ := 1
deriving DecidableEq, Repr

/-- External capabilities: `sim` is the fuzzywuzzy `fuzz.ratio` 0–100
similarity; `far la loa lb lob` decides
`geopy.distance.geodesic((la, loa), (lb, lob)).miles > 2.0`. -/
structure Ext where
  sim : String → String → ℕ
  far : ℚ → ℚ → ℚ → ℚ → Bool

/-- Trivial instantiation of the external capabilities, used to evaluate the
integrator on concrete inputs whose decisions do not reach them. -/
def extZero : Ext := ⟨fun _ _ => 0, fun _ _ _ _ => false⟩

/-- The `f"{city} {county}"` location string of `is_duplicate`. -/
def locStr (r : Record) : String := r.city ++ " " ++ r.county

/-- Geographic hard filter of `is_duplicate`: parse all four coordinates
(`except: pass` skips the whole block when any parse fails), and only when all
four are nonzero ask whether the geodesic distance exceeds 2 miles. -/
def geoReject (E : Ext) (a b : Record) : Bool :=
  match floatOf a.latitude, floatOf a.longitude, floatOf b.latitude, floatOf b.longitude with
  | some la, some loa, some lb, some lob =>
      if la ≠ 0 ∧ loa ≠ 0 ∧ lb ≠ 0 ∧ lob ≠ 0 then E.far la loa lb lob else false
  | _, _, _, _ => false

/-- `MultiSourceIntegrator.is_duplicate`, rule for rule in source order:
same-source equal-id acceptance, then the 3-day gap, the geographic filter,
state, cleaned bias motivation, description similarity, location similarity. -/
def is_duplicate (E : Ext) (a b : Record) : Bool :=
  if a.source = b.source ∧ a.incident_id ≠ "" ∧ b.incident_id ≠ "" ∧
      a.incident_id = b.incident_id then
    true
  else
    match a.date, b.date with
    | some da, some db =>
      if 3 < (dayNum da - dayNum db).natAbs then false
      else if geoReject E a b then false
      else if a.state ≠ "" ∧ b.state ≠ "" ∧ a.state ≠ b.state then false
      else if a.bias_motivation_cleaned ≠ "" ∧ b.bias_motivation_cleaned ≠ "" ∧
          a.bias_motivation_cleaned ≠ b.bias_motivation_cleaned then false
      else if 20 < a.description.length ∧ 20 < b.description.length ∧
          80 < E.sim (lowerS a.description) (lowerS b.description) then true
      else if 5 < (trimS (locStr a)).length ∧ 5 < (trimS (locStr b)).length ∧
          85 < E.sim (lowerS (locStr a)) (lowerS (locStr b)) then true
      else false
    | _, _ => false

/-! ### Deduplication pass -/

def police : List String := ["NYPD", "LAPD"]

/-- Which side of a confirmed duplicate pair the pass removes. -/
inductive Victim where
  | removeB : Victim
  | removeA : Victim
deriving DecidableEq, Repr

/-- Resolution step of `advanced_deduplication` for a confirmed duplicate pair
`(a, b)` with `a` the anchor: ADL beats NYPD/LAPD, otherwise the longer
description survives (ties keep the anchor). -/
def resolve (a b : Record) : Victim :=
  if a.source = "ADL" ∧ b.source ∈ police then Victim.removeB
  else if b.source = "ADL" ∧ a.source ∈ police then Victim.removeA
  else if b.description.length ≤ a.description.length then Victim.removeB
  else Victim.removeA

/-- Mutable state of the pass: removed row positions and (instrumentation)
the list of index pairs on which `is_duplicate` was evaluated. -/
structure DedupState where
  removed : List ℕ
  compared : List (ℕ × ℕ)
deriving DecidableEq, Repr

/-- Inner loop of `advanced_deduplication`: scan forward from position `j` for
duplicates of anchor `a` (at position `i`, parsed date `da`), stopping at the
first not-yet-removed record dated more than 30 days after the anchor, or when
the anchor itself is removed. -/
def scanStep (E : Ext) (rs : List Record) (i : ℕ) (a : Record) (da : Date) :
    ℕ → ℕ → DedupState → DedupState
  | 0, _, st => st
  | fuel + 1, j, st =>
    match rs.get? j with
    | none => st
    | some b =>
      if j ∈ st.removed then scanStep E rs i a da fuel (j + 1) st
      else
        match b.date with
        | none => scanStep E rs i a da fuel (j + 1) st
        | some db =>
          if 30 < dayNum db - dayNum da then st
          else
            let st1 : DedupState := ⟨st.removed, st.compared ++ [(i, j)]⟩
            if is_duplicate E a b then
              match resolve a b with
              | Victim.removeB =>
                  scanStep E rs i a da fuel (j + 1) ⟨st1.removed ++ [j], st1.compared⟩
              | Victim.removeA => ⟨st1.removed ++ [i], st1.compared⟩
            else scanStep E rs i a da fuel (j + 1) st1

/-- Outer loop of `advanced_deduplication`: each not-yet-removed record with a
parsed date becomes an anchor and scans forward from the next position. -/
def passLoop (E : Ext) (rs : List Record) : ℕ → ℕ → DedupState → DedupState
  | 0, _, st => st
  | fuel + 1, i, st =>
    match rs.get? i with
    | none => st
    | some a =>
      if i ∈ st.removed then passLoop E rs fuel (i + 1) st
      else
        match a.date with
        | none => passLoop E rs fuel (i + 1) st
        | some da => passLoop E rs fuel (i + 1) (scanStep E rs i a da rs.length (i + 1) st)

/-- Records with unknown date order after every dated record
(`sort_values` places NaN last); dated records order by the `MM/DD/YYYY`
string key. -/
def dateLE (a b : Record) : Bool :=
  match a.date, b.date with
  | none, none => true
  | none, some _ => false
  | some _, none => true
  | some x, some y => dkey x ≤ dkey y

/-- Sorting of `df.sort_values` on the standardized date column. -/
def sortRecs (l : List Record) : List Record :=
  List.insertionSort (fun a b => dateLE a b = true) l

/-- Complete pass state on a sorted table. -/
def dedupRun (E : Ext) (rs : List Record) : DedupState :=
  passLoop E rs rs.length 0 ⟨[], []⟩

/-- `df_sorted.drop(duplicates_to_remove)`: keep the rows whose position was
never marked removed, in order. -/
def keepAlive : ℕ → List ℕ → List Record → List Record
  | _, _, [] => []
  | i, rem, r :: rs =>
      if i ∈ rem then keepAlive (i + 1) rem rs else r :: keepAlive (i + 1) rem rs

/-- `MultiSourceIntegrator.advanced_deduplication`. -/
def advanced_deduplication (E : Ext) (df : List Record) : List Record :=
  keepAlive 0 (dedupRun E (sortRecs df)).removed (sortRecs df)

/-! ### Bias-motivation normalization -/

/-- `MultiSourceIntegrator.clean_bias_motivation`: `none` models a NaN cell.
The raw text is uppercased and stripped, then tested against the ordered
keyword groups; the first match wins, otherwise the uppercased stripped text
passes through. -/
def clean_bias_motivation (bias : Option String) : String :=
  match bias with
  | none => "UNKNOWN"
  | some s =>
    if s = "" then "UNKNOWN"
    else
      let b := trimS (upperS s)
      if ["JEWISH", "JUDAISM", "ANTISEMIT", "ANTI-SEMIT"].any (fun t => containsS b t) then
        "ANTI-JEWISH"
      else if ["MUSLIM", "ISLAM", "ISLAMIC"].any (fun t => containsS b t) then "ANTI-ISLAMIC"
      else if ["BLACK", "AFRICAN"].any (fun t => containsS b t) then "ANTI-BLACK"
      else if ["HISPANIC", "LATINO"].any (fun t => containsS b t) then "ANTI-HISPANIC"
      else if ["ASIAN", "PACIFIC"].any (fun t => containsS b t) then "ANTI-ASIAN"
      else if ["WHITE", "CAUCASIAN"].any (fun t => containsS b t) then "ANTI-WHITE"
      else if ["GAY", "LESBIAN", "LGBTQ", "TRANSGENDER", "BISEXUAL"].any
          (fun t => containsS b t) then "ANTI-LGBTQ"
      else if ["CATHOLIC", "CHRISTIAN", "PROTESTANT"].any (fun t => containsS b t) then
        "ANTI-CHRISTIAN"
      else b

/-- The ordered category/keyword table exactly as the specification lists it,
used only by the spec-side rendering `clean_bias_spec`. -/
def biasGroups : List (String × List String) :=
  [("ANTI-JEWISH", ["JEWISH", "JUDAISM", "ANTISEMIT", "ANTI-SEMIT"]),
   ("ANTI-ISLAMIC", ["MUSLIM", "ISLAM", "ISLAMIC"]),
   ("ANTI-BLACK", ["BLACK", "AFRICAN"]),
   ("ANTI-HISPANIC", ["HISPANIC", "LATINO"]),
   ("ANTI-ASIAN", ["ASIAN", "PACIFIC"]),
   ("ANTI-WHITE", ["WHITE", "CAUCASIAN"]),
   ("ANTI-LGBTQ", ["GAY", "LESBIAN", "LGBTQ", "TRANSGENDER", "BISEXUAL"]),
   ("ANTI-CHRISTIAN", ["CATHOLIC", "CHRISTIAN", "PROTESTANT"])]

/-- First category of an ordered keyword table whose keyword set matches the
prepared text. -/
def firstGroup (b : String) : List (String × List String) → Option String
  | [] => none
  | g :: gs => if g.2.any (fun t => containsS b t) then some g.1 else firstGroup b gs

/-- Spec-side rendering of the classifier: first matching category of the
ordered table wins, otherwise the uppercased stripped text passes through,
empty or missing input classifies as UNKNOWN. -/
def clean_bias_spec (bias : Option String) : String :=
  match bias with
  | none => "UNKNOWN"
  | some s =>
    if s = "" then "UNKNOWN"
    else
      let b := trimS (upperS s)
      match firstGroup b biasGroups with
      | some c => c
      | none => b

/-! ### ADL normalizer (`process_manual_adl_data.py`) -/

/-- One raw ADL incident.  The source probes several alternative field-name
spellings per value (`get_field`); the probe result is modelled directly:
`bias_field` is the first truthy value among the bias-motivation field names,
`none` when every spelling is absent or falsy. -/
structure AdlIncident where
  date : Option Date := none
  bias_field : Option String := none
deriving DecidableEq, Repr

/-- `ManualADLProcessor.standardize_bias_motivation`: lowercase and strip the
raw field, test the ordered keyword groups (this normalizer has no Christian
group), else pass through the uppercased raw text; no field gives the empty
string. -/
def standardize_bias_motivation (biasRaw : Option String) : String :=
  match biasRaw with
  | none => ""
  | some raw =>
    let b := trimS (lowerS raw)
    if ["jewish", "antisemit", "anti-semit", "judaism"].any (fun t => containsS b t) then
      "ANTI-JEWISH"
    else if ["muslim", "islam", "islamic"].any (fun t => containsS b t) then "ANTI-ISLAMIC"
    else if ["black", "african"].any (fun t => containsS b t) then "ANTI-BLACK"
    else if ["hispanic", "latino"].any (fun t => containsS b t) then "ANTI-HISPANIC"
    else if ["asian", "pacific"].any (fun t => containsS b t) then "ANTI-ASIAN"
    else if ["white", "caucasian"].any (fun t => containsS b t) then "ANTI-WHITE"
    else if ["gay", "lesbian", "lgbtq", "transgender"].any (fun t => containsS b t) then
      "ANTI-LGBTQ"
    else upperS raw

/-- NCVS correction weight of `convert_to_unified_schema`: `1.45` when the
standardized bias text is truthy and its uppercasing contains JEWISH or
ANTISEMIT, else `1.0`. -/
def adl_incidents_corrected (bias : String) : ℚ :=
  if bias ≠ "" ∧ (containsS (upperS bias) "JEWISH" = true ∨
      containsS (upperS bias) "ANTISEMIT" = true) then 1.45 else 1

/-- `ManualADLProcessor.convert_to_unified_schema`, restricted to the fields
the claims are about; the final clean-up turns empty strings into `None`
(modelled by the `Option`). -/
def convert_to_unified_schema (inc : AdlIncident) : Record :=
  let bias := standardize_bias_motivation inc.bias_field
  { date := inc.date
    source := "ADL"
    bias_motivation := if bias = "" then none else some bias
    verified := "True"
    incidents_corrected := adl_incidents_corrected bias }

/-! ### FBI loader (`load_fbi_data` transform of `multi_source_integrator.py`) -/

/-- One row of a downloaded FBI monthly-total file
(`download_fbi_data.extract_incidents`). -/
structure FbiRow where
  date : Option Date := none
  month_year : String := ""
  state : String := ""
  state_name : String := ""
  incident_count : ℕ := 0
  bias_motivation : Option String := some "ALL_HATE_CRIMES"
deriving DecidableEq, Repr

/-- Per-row effect of the `load_fbi_data` schema transform: the correction
weight is set to the monthly incident count, the source to `FBI`, coordinates
and county/city to empty, the id to `state_month_FBI`. -/
def load_fbi_row (row : FbiRow) : Record :=
  { date := row.date
    state := row.state
    county := ""
    city := ""
    latitude := Coord.unparsable
    longitude := Coord.unparsable
    bias_motivation := row.bias_motivation
    source := "FBI"
    incident_id := row.state ++ "_" ++ row.month_year ++ "_FBI"
    description := "Monthly FBI hate crime total for " ++ row.state_name
    verified := "True"
    incidents_corrected := (row.incident_count : ℚ) }

/-! ### Integration entry point -/

/-- Column standardization of `standardize_schemas` relevant to the claims:
recompute `bias_motivation_cleaned` from the raw bias motivation. -/
def standardize_one (r : Record) : Record :=
  { r with bias_motivation_cleaned := clean_bias_motivation r.bias_motivation }

def standardize_schemas (l : List Record) : List Record := l.map standardize_one

/-- `MultiSourceIntegrator.integrate_all_sources`: fatal only when every
loaded source table is empty; otherwise standardize, concatenate the
non-empty tables and deduplicate. -/
def integrate_all_sources (E : Ext) (existing adl fbi : List Record) :
    Except String (List Record) :=
  if existing = [] ∧ adl = [] ∧ fbi = [] then
    Except.error "No data sources available for integration"
  else
    let dfs := [standardize_schemas existing, standardize_schemas adl,
      standardize_schemas fbi].filter (fun d => d ≠ [])
    match dfs with
    | [] => Except.error "No valid data to integrate"
    | [d] => Except.ok (advanced_deduplication E d)
    | ds => Except.ok (advanced_deduplication E ds.flatten)

/-- The geographic rule applies only when all four coordinate cells parse and
are nonzero. -/
def allCoordsNonzero (a b : Record) : Bool :=
  match floatOf a.latitude, floatOf a.longitude, floatOf b.latitude, floatOf b.longitude with
  | some la, some loa, some lb, some lob => decide (la ≠ 0 ∧ loa ≠ 0 ∧ lb ≠ 0 ∧ lob ≠ 0)
  | _, _, _, _ => false

/-- The record stored at position `k` (if any) has a parsed date. -/
def datedAt (rs : List Record) (k : ℕ) : Prop :=
  ∀ s, rs.get? k = some s → s.date ≠ none

/-- Pass invariant: every removed position and every side of every evaluated
pair holds a record with a parsed date. -/
def InvR (rs : List Record) (st : DedupState) : Prop :=
  (∀ k ∈ st.removed, datedAt rs k) ∧
  (∀ q ∈ st.compared, datedAt rs q.1 ∧ datedAt rs q.2)

/-! ### Case-folding and substring lemmas -/

theorem toNat_ofNat_small (n : ℕ) (h : n < 55296) : (Char.ofNat n).toNat = n := by
  unfold Char.ofNat
  rw [dif_pos (Or.inl h)]
  simp [Char.ofNatAux, Char.toNat, UInt32.toNat]

theorem ofNat_toNat_char (c : Char) : Char.ofNat c.toNat = c := by
  unfold Char.ofNat
  split
  · apply Char.ext
    simp [Char.ofNatAux, Char.toNat, UInt32.toNat]
    rfl
  · exact absurd c.valid (by assumption)

theorem upChar_toNat {c : Char} (h : 97 ≤ c.toNat ∧ c.toNat ≤ 122) :
    (upChar c).toNat = c.toNat - 32 := by
  rw [upChar, if_pos h, toNat_ofNat_small]
  omega

theorem upChar_eq_self {c : Char} (h : ¬(97 ≤ c.toNat ∧ c.toNat ≤ 122)) :
    upChar c = c := by
  rw [upChar, if_neg h]

theorem upChar_upChar (c : Char) : upChar (upChar c) = upChar c := by
  by_cases h : 97 ≤ c.toNat ∧ c.toNat ≤ 122
  · have ht := upChar_toNat h
    exact upChar_eq_self (by omega)
  · rw [upChar_eq_self h, upChar_eq_self h]

theorem lowChar_upChar (c : Char) : lowChar (upChar c) = lowChar c := by
  by_cases h : 97 ≤ c.toNat ∧ c.toNat ≤ 122
  · have ht := upChar_toNat h
    have h2 : 65 ≤ (upChar c).toNat ∧ (upChar c).toNat ≤ 90 := by omega
    rw [lowChar, if_pos h2, ht]
    have h3 : c.toNat - 32 + 32 = c.toNat := by omega
    rw [h3, ofNat_toNat_char]
    rw [lowChar, if_neg (by omega)]
  · rw [upChar_eq_self h]

theorem upperL_upperL (s : List Char) : upperL (upperL s) = upperL s := by
  induction s with
  | nil => rfl
  | cons c cs ih =>
    simp only [upperL, List.map] at *
    rw [upChar_upChar]
    exact congrArg _ ih

theorem isPrefixL_low_of_up :
    ∀ p s, isPrefixL (upperL p) (upperL s) = true → isPrefixL (lowerL p) (lowerL s) = true := by
  intro p
  induction p with
  | nil =>
    intro s _
    rfl
  | cons q qs ih =>
    intro s h
    cases s with
    | nil => simp [upperL, isPrefixL] at h
    | cons c cs =>
      simp only [upperL, lowerL, List.map, isPrefixL] at h ⊢
      by_cases he : upChar q = upChar c
      · have hl : lowChar q = lowChar c := by
          rw [← lowChar_upChar q, he, lowChar_upChar]
        rw [if_pos he] at h
        rw [if_pos hl]
        exact ih cs h
      · rw [if_neg he] at h
        exact absurd h (by simp)

theorem containsL_low_of_up :
    ∀ s p, containsL (upperL s) (upperL p) = true → containsL (lowerL s) (lowerL p) = true := by
  intro s
  induction s with
  | nil =>
    intro p h
    cases p with
    | nil => rfl
    | cons q qs => simp [upperL, containsL, isPrefixL] at h
  | cons c cs ih =>
    intro p h
    simp only [upperL, lowerL, List.map, containsL] at h ⊢
    rcases (Bool.or_eq_true _ _).mp h with h | h
    · have hp := isPrefixL_low_of_up p (c :: cs) h
      simp only [lowerL, List.map] at hp
      exact (Bool.or_eq_true _ _).mpr (Or.inl hp)
    · exact (Bool.or_eq_true _ _).mpr (Or.inr (ih p h))

theorem isPrefixL_append : ∀ p s t, isPrefixL p s = true → isPrefixL p (s ++ t) = true := by
  intro p
  induction p with
  | nil =>
    intro s t _
    rfl
  | cons q qs ih =>
    intro s t h
    cases s with
    | nil => simp [isPrefixL] at h
    | cons c cs =>
      simp only [isPrefixL, List.cons_append] at h ⊢
      by_cases he : q = c
      · rw [if_pos he] at h ⊢
        exact ih cs t h
      · rw [if_neg he] at h
        exact absurd h (by simp)

theorem containsL_nilPat : ∀ s, containsL s [] = true := by
  intro s
  cases s with
  | nil => rfl
  | cons c cs => simp [containsL, isPrefixL]

theorem containsL_of_isPrefixL {p s : List Char} (h : isPrefixL p s = true) :
    containsL s p = true := by
  cases s with
  | nil =>
    cases p with
    | nil => rfl
    | cons q qs => simp [isPrefixL] at h
  | cons c cs =>
    simp only [containsL]
    rw [h]
    simp

theorem containsL_append_right :
    ∀ s t p, containsL s p = true → containsL (s ++ t) p = true := by
  intro s
  induction s with
  | nil =>
    intro t p h
    cases p with
    | nil => exact containsL_nilPat t
    | cons q qs => simp [containsL, isPrefixL] at h
  | cons c cs ih =>
    intro t p h
    simp only [containsL, List.cons_append] at h ⊢
    rcases (Bool.or_eq_true _ _).mp h with h | h
    · exact (Bool.or_eq_true _ _).mpr (Or.inl (isPrefixL_append p (c :: cs) t h))
    · exact (Bool.or_eq_true _ _).mpr (Or.inr (ih t p h))

theorem containsL_append_left :
    ∀ x s p, containsL s p = true → containsL (x ++ s) p = true := by
  intro x
  induction x with
  | nil =>
    intro s p h
    exact h
  | cons c cs ih =>
    intro s p h
    simp only [containsL, List.cons_append]
    exact (Bool.or_eq_true _ _).mpr (Or.inr (ih s p h))

theorem exists_of_isPrefixL : ∀ p s, isPrefixL p s = true → ∃ t, s = p ++ t := by
  intro p
  induction p with
  | nil =>
    intro s _
    exact ⟨s, rfl⟩
  | cons q qs ih =>
    intro s h
    cases s with
    | nil => simp [isPrefixL] at h
    | cons c cs =>
      simp only [isPrefixL] at h
      by_cases he : q = c
      · rw [if_pos he] at h
        rcases ih cs h with ⟨t, ht⟩
        refine ⟨t, ?_⟩
        rw [ht, he]
        rfl
      · rw [if_neg he] at h
        exact absurd h (by simp)

theorem isPrefixL_self_append : ∀ p t, isPrefixL p (p ++ t) = true := by
  intro p
  induction p with
  | nil =>
    intro t
    rfl
  | cons q qs ih =>
    intro t
    simp only [isPrefixL, List.cons_append]
    simpa using ih t

theorem containsL_iff (s p : List Char) :
    containsL s p = true ↔ ∃ x y, s = x ++ p ++ y := by
  constructor
  · intro h
    induction s with
    | nil =>
      cases p with
      | nil => exact ⟨[], [], rfl⟩
      | cons q qs => simp [containsL, isPrefixL] at h
    | cons c cs ih =>
      simp only [containsL] at h
      rcases (Bool.or_eq_true _ _).mp h with h | h
      · rcases exists_of_isPrefixL p (c :: cs) h with ⟨t, ht⟩
        exact ⟨[], t, by rw [ht]; rfl⟩
      · rcases ih h with ⟨x, y, hxy⟩
        refine ⟨c :: x, y, ?_⟩
        rw [hxy]
        simp
  · rintro ⟨x, y, rfl⟩
    have hb := containsL_append_left x (p ++ y) p
      (containsL_of_isPrefixL (isPrefixL_self_append p y))
    simpa [List.append_assoc] using hb

theorem containsL_rev_of {s p : List Char} (h : containsL s p = true) :
    containsL s.reverse p.reverse = true := by
  rcases (containsL_iff s p).1 h with ⟨x, y, rfl⟩
  refine (containsL_iff _ _).2 ⟨y.reverse, x.reverse, ?_⟩
  simp

theorem containsL_dropWhile_of :
    ∀ s q qs, isSpaceCh q = false → containsL s (q :: qs) = true →
      containsL (s.dropWhile isSpaceCh) (q :: qs) = true := by
  intro s
  induction s with
  | nil =>
    intro q qs _ h
    simp [containsL, isPrefixL] at h
  | cons c cs ih =>
    intro q qs hq h
    by_cases hc : isSpaceCh c = true
    · rw [List.dropWhile_cons_of_pos hc]
      simp only [containsL] at h
      rcases (Bool.or_eq_true _ _).mp h with h | h
      · simp only [isPrefixL] at h
        by_cases he : q = c
        · rw [he] at hq
          rw [hq] at hc
          simp at hc
        · rw [if_neg he] at h
          simp at h
      · exact ih q qs hq h
    · rw [List.dropWhile_cons_of_neg (by simpa using hc)]
      exact h

theorem containsL_trim_of {s p : List Char} (h : containsL s p = true)
    (hne : p ≠ []) (hsp : ∀ c ∈ p, isSpaceCh c = false) :
    containsL (trimL s) p = true := by
  rcases p with _ | ⟨q, qs⟩
  · exact absurd rfl hne
  have h1 := containsL_dropWhile_of s q qs (hsp q (by simp)) h
  have h2 := containsL_rev_of h1
  rcases hr : (q :: qs).reverse with _ | ⟨q2, qs2⟩
  · simp at hr
  have hq2 : isSpaceCh q2 = false :=
    hsp q2 (List.mem_reverse.1 (by rw [hr]; simp))
  rw [hr] at h2
  have h3 := containsL_dropWhile_of _ q2 qs2 hq2 h2
  have h4 := containsL_rev_of h3
  rw [← hr] at h4
  simpa [trimL] using h4

theorem containsL_of_trim {s p : List Char} (h : containsL (trimL s) p = true) :
    containsL s p = true := by
  have hsplit : s.dropWhile isSpaceCh =
      trimL s ++ ((s.dropWhile isSpaceCh).reverse.takeWhile isSpaceCh).reverse := by
    conv_lhs =>
      rw [← List.reverse_reverse (s.dropWhile isSpaceCh),
        ← List.takeWhile_append_dropWhile isSpaceCh (s.dropWhile isSpaceCh).reverse,
        List.reverse_append]
    rfl
  have h1 : containsL (s.dropWhile isSpaceCh) p = true := by
    rw [hsplit]
    exact containsL_append_right _ _ p h
  have h2 : s = s.takeWhile isSpaceCh ++ s.dropWhile isSpaceCh :=
    (List.takeWhile_append_dropWhile isSpaceCh s).symm
  rw [h2]
  exact containsL_append_left _ _ p h1

/-! ### Basic facts about the pairwise match evaluator -/

theorem geoReject_eq_false (E : Ext) (a b : Record)
    (h : allCoordsNonzero a b = false) : geoReject E a b = false := by
  unfold geoReject
  unfold allCoordsNonzero at h
  rcases h1 : floatOf a.latitude with _ | la <;> rw [h1] at h <;>
    rcases h2 : floatOf a.longitude with _ | loa <;> rw [h2] at h <;>
      rcases h3 : floatOf b.latitude with _ | lb <;> rw [h3] at h <;>
        rcases h4 : floatOf b.longitude with _ | lob <;> rw [h4] at h <;>
          simp_all

theorem geoReject_symm (E : Ext)
    (hfar : ∀ p q u v, E.far p q u v = E.far u v p q) (a b : Record) :
    geoReject E a b = geoReject E b a := by
  unfold geoReject
  rcases h1 : floatOf a.latitude with _ | la <;>
    rcases h2 : floatOf a.longitude with _ | loa <;>
      rcases h3 : floatOf b.latitude with _ | lb <;>
        rcases h4 : floatOf b.longitude with _ | lob <;> simp_all
  by_cases hla : la = 0 <;> by_cases hloa : loa = 0 <;> by_cases hlb : lb = 0 <;>
    by_cases hlob : lob = 0 <;> simp [hla, hloa, hlb, hlob]

/-! ### Claim C1 -/

/-- C1 fails on the code: two records of the same source sharing the same
non-empty incident id are accepted as duplicates by the identifier rule
before the 3-day gap rule is ever consulted.  Here the parsed dates are 40
days apart and `is_duplicate` still returns true. -/
theorem C1_counterexample :
    3 < (dayNum ⟨12, 25, 2022⟩ - dayNum ⟨2, 3, 2023⟩).natAbs ∧
    is_duplicate extZero
      { date := some ⟨12, 25, 2022⟩, state := "NY", source := "NYPD", incident_id := "A1" }
      { date := some ⟨2, 3, 2023⟩, state := "NY", source := "NYPD", incident_id := "A1" } =
      true := by
  decide

/-- C1 amended: for a candidate pair whose parsed dates differ by more than 3
days, `is_duplicate` returns false unless the two records carry the same
source and the same non-empty incident id, in which case the identifier rule
fires first and accepts. -/
theorem C1_amended (E : Ext) (a b : Record) (da db : Date)
    (ha : a.date = some da) (hb : b.date = some db)
    (hgap : 3 < (dayNum da - dayNum db).natAbs)
    (hid : ¬(a.source = b.source ∧ a.incident_id ≠ "" ∧ b.incident_id ≠ "" ∧
      a.incident_id = b.incident_id)) :
    is_duplicate E a b = false := by
  unfold is_duplicate
  rw [if_neg hid, ha, hb]
  simp only [if_pos hgap]

/-- Closed instance of the amended C1 statement. -/
theorem C1_amended_witness :
    is_duplicate extZero
      { date := some ⟨1, 1, 2023⟩, source := "NYPD", incident_id := "A1" }
      { date := some ⟨1, 11, 2023⟩, source := "LAPD", incident_id := "A1" } = false :=
  C1_amended extZero _ _ ⟨1, 1, 2023⟩ ⟨1, 11, 2023⟩ rfl rfl (by decide) (by decide)

/-! ### Claim C3 -/

/-- C3: for a confirmed duplicate pair split between the advocacy tier (ADL)
and the government-police tier (NYPD or LAPD), the resolution step always
removes the police-tier record and keeps the advocacy record, whatever the
description lengths are. -/
theorem C3_precedence (E : Ext) (a b : Record)
    (hdup : is_duplicate E a b = true)
    (hsplit : (a.source = "ADL" ∧ b.source ∈ police) ∨
      (b.source = "ADL" ∧ a.source ∈ police)) :
    (a.source = "ADL" → resolve a b = Victim.removeB) ∧
    (b.source = "ADL" → resolve a b = Victim.removeA) := by
  rcases hsplit with ⟨h1, h2⟩ | ⟨h1, h2⟩
  · refine ⟨fun _ => ?_, fun hb => ?_⟩
    · unfold resolve
      rw [if_pos ⟨h1, h2⟩]
    · rw [hb] at h2
      simp [police] at h2
  · refine ⟨fun hb => ?_, fun _ => ?_⟩
    · rw [hb] at h2
      simp [police] at h2
    · unfold resolve
      have hna : ¬(a.source = "ADL" ∧ b.source ∈ police) := by
        rintro ⟨he, _⟩
        rw [he] at h2
        simp [police] at h2
      rw [if_neg hna, if_pos ⟨h1, h2⟩]

/-- Closed instance of C3: an ADL/NYPD duplicate pair (confirmed through the
description-similarity rule) resolves against the NYPD record in both anchor
orders, although the police description is the longer one. -/
theorem C3_precedence_witness :
    (resolve
        { date := some ⟨5, 1, 2023⟩, state := "NY", bias_motivation_cleaned := "ANTI-JEWISH",
          source := "ADL", description := "aaaaaaaaaaaaaaaaaaaaa" }
        { date := some ⟨5, 3, 2023⟩, state := "NY", bias_motivation_cleaned := "ANTI-JEWISH",
          source := "NYPD", description := "bbbbbbbbbbbbbbbbbbbbbbbbbbbbbbbbbbbbbbbbb" } =
      Victim.removeB) ∧
    (resolve
        { date := some ⟨5, 3, 2023⟩, state := "NY", bias_motivation_cleaned := "ANTI-JEWISH",
          source := "NYPD", description := "bbbbbbbbbbbbbbbbbbbbbbbbbbbbbbbbbbbbbbbbb" }
        { date := some ⟨5, 1, 2023⟩, state := "NY", bias_motivation_cleaned := "ANTI-JEWISH",
          source := "ADL", description := "aaaaaaaaaaaaaaaaaaaaa" } =
      Victim.removeA) := by
  constructor
  · exact (C3_precedence ⟨fun _ _ => 100, fun _ _ _ _ => false⟩ _ _ (by decide)
      (Or.inl (by decide))).1 (by decide)
  · exact (C3_precedence ⟨fun _ _ => 100, fun _ _ _ _ => false⟩ _ _ (by decide)
      (Or.inr (by decide))).2 (by decide)

/-! ### Claim C10 -/

/-- C10: whenever any of the four coordinate cells is missing, unparsable or
exactly zero, the geographic rule is skipped: it never rejects the pair, and
the verdict of `is_duplicate` does not depend on the geodesic distance
predicate at all. -/
theorem C10_geographic_rule (E : Ext) (far2 : ℚ → ℚ → ℚ → ℚ → Bool) (a b : Record)
    (h : allCoordsNonzero a b = false) :
    geoReject E a b = false ∧
    is_duplicate E a b = is_duplicate ⟨E.sim, far2⟩ a b := by
  refine ⟨geoReject_eq_false E a b h, ?_⟩
  unfold is_duplicate
  simp only [geoReject_eq_false E a b h, geoReject_eq_false ⟨E.sim, far2⟩ a b h]

/-- Closed instance of C10: a record at latitude 0 (with a real longitude) is
treated as having no coordinates, so even a distance predicate that always
answers "too far" cannot reject the pair. -/
theorem C10_geographic_rule_witness :
    geoReject ⟨fun _ _ => 0, fun _ _ _ _ => true⟩
      { date := some ⟨1, 1, 2023⟩, latitude := Coord.num 0, longitude := Coord.num 50 }
      { date := some ⟨1, 1, 2023⟩, latitude := Coord.num 40, longitude := Coord.num 50 } =
      false ∧
    is_duplicate ⟨fun _ _ => 0, fun _ _ _ _ => true⟩
      { date := some ⟨1, 1, 2023⟩, latitude := Coord.num 0, longitude := Coord.num 50 }
      { date := some ⟨1, 1, 2023⟩, latitude := Coord.num 40, longitude := Coord.num 50 } =
    is_duplicate ⟨fun _ _ => 0, fun _ _ _ _ => false⟩
      { date := some ⟨1, 1, 2023⟩, latitude := Coord.num 0, longitude := Coord.num 50 }
      { date := some ⟨1, 1, 2023⟩, latitude := Coord.num 40, longitude := Coord.num 50 } :=
  C10_geographic_rule ⟨fun _ _ => 0, fun _ _ _ _ => true⟩ (fun _ _ _ _ => false) _ _ (by decide)

/-! ### Claim C9 -/

/-- C9: `is_duplicate` is symmetric provided the two external comparisons
(the fuzzy similarity ratio and the geodesic distance cutoff) are symmetric
in the pair; every built-in rule is symmetric on its own. -/
theorem C9_is_duplicate_symm (E : Ext)
    (hsim : ∀ s t, E.sim s t = E.sim t s)
    (hfar : ∀ p q u v, E.far p q u v = E.far u v p q) (a b : Record) :
    is_duplicate E a b = is_duplicate E b a := by
  unfold is_duplicate
  refine if_congr ?_ rfl ?_
  · constructor
    · rintro ⟨h1, h2, h3, h4⟩
      exact ⟨h1.symm, h3, h2, h4.symm⟩
    · rintro ⟨h1, h2, h3, h4⟩
      exact ⟨h1.symm, h3, h2, h4.symm⟩
  · rcases hda : a.date with _ | da <;> rcases hdb : b.date with _ | db
    case none.none => rfl
    case none.some => rfl
    case some.none => rfl
    case some.some =>
      refine if_congr (by omega) rfl ?_
      refine if_congr (by rw [geoReject_symm E hfar a b]) rfl ?_
      refine if_congr ?_ rfl ?_
      · constructor
        · rintro ⟨h1, h2, h3⟩
          exact ⟨h2, h1, h3.symm⟩
        · rintro ⟨h1, h2, h3⟩
          exact ⟨h2, h1, h3.symm⟩
      refine if_congr ?_ rfl ?_
      · constructor
        · rintro ⟨h1, h2, h3⟩
          exact ⟨h2, h1, h3.symm⟩
        · rintro ⟨h1, h2, h3⟩
          exact ⟨h2, h1, h3.symm⟩
      refine if_congr ?_ rfl ?_
      · rw [hsim]
        constructor
        · rintro ⟨h1, h2, h3⟩
          exact ⟨h2, h1, h3⟩
        · rintro ⟨h1, h2, h3⟩
          exact ⟨h2, h1, h3⟩
      refine if_congr ?_ rfl rfl
      rw [hsim]
      constructor
      · rintro ⟨h1, h2, h3⟩
        exact ⟨h2, h1, h3⟩
      · rintro ⟨h1, h2, h3⟩
        exact ⟨h2, h1, h3⟩

/-- Closed instance of C9 at a concrete symmetric capability record and a
concrete pair of records. -/
theorem C9_is_duplicate_symm_witness :
    is_duplicate extZero
      { date := some ⟨3, 1, 2023⟩, state := "NY", source := "NYPD", incident_id := "A1" }
      { date := some ⟨3, 2, 2023⟩, state := "NY", source := "LAPD", incident_id := "B2" } =
    is_duplicate extZero
      { date := some ⟨3, 2, 2023⟩, state := "NY", source := "LAPD", incident_id := "B2" }
      { date := some ⟨3, 1, 2023⟩, state := "NY", source := "NYPD", incident_id := "A1" } :=
  C9_is_duplicate_symm extZero (fun _ _ => rfl) (fun _ _ _ _ => rfl) _ _

/-! ### Claim C2 -/

/-- C2 fails on the code: the pass sorts by the `MM/DD/YYYY` date string, so
`02/03/2023` orders before `12/25/2022` although it is 40 days later.  The
scan gap `02/03/2023 → 12/25/2022` computes as −40 days, the 30-day stop
never fires, the two otherwise-identical records 40 days apart are compared,
found duplicates through the shared incident id, and one of them is removed
instead of both being retained. -/
theorem C2_failing_input :
    dayNum ⟨2, 3, 2023⟩ - dayNum ⟨12, 25, 2022⟩ = 40 ∧
    sortRecs
      [{ date := some ⟨12, 25, 2022⟩, state := "NY", source := "NYPD", incident_id := "A1" },
       { date := some ⟨2, 3, 2023⟩, state := "NY", source := "NYPD", incident_id := "A1" }] =
      [{ date := some ⟨2, 3, 2023⟩, state := "NY", source := "NYPD", incident_id := "A1" },
       { date := some ⟨12, 25, 2022⟩, state := "NY", source := "NYPD", incident_id := "A1" }] ∧
    advanced_deduplication extZero
      [{ date := some ⟨12, 25, 2022⟩, state := "NY", source := "NYPD", incident_id := "A1" },
       { date := some ⟨2, 3, 2023⟩, state := "NY", source := "NYPD", incident_id := "A1" }] =
      [{ date := some ⟨2, 3, 2023⟩, state := "NY", source := "NYPD", incident_id := "A1" }] := by
  decide

/-! ### Claim C5 -/

/-- C5 fails on the code: deduplication is not idempotent.  With the string
sort `01/10/2023 < 01/15/2024 < 01/16/2022`, the first run breaks the scan of
the first anchor at the +370-day gap before reaching its twin at position 2,
removes only the middle record, and outputs two records that still share a
source and incident id; the second run then removes one of them. -/
theorem C5_not_idempotent :
    (advanced_deduplication extZero
        [{ date := some ⟨1, 10, 2023⟩, source := "NYPD", incident_id := "X" },
         { date := some ⟨1, 15, 2024⟩, source := "NYPD", incident_id := "X" },
         { date := some ⟨1, 16, 2022⟩, source := "NYPD", incident_id := "X",
           description := "abcd" }]).length = 2 ∧
    (advanced_deduplication extZero (advanced_deduplication extZero
        [{ date := some ⟨1, 10, 2023⟩, source := "NYPD", incident_id := "X" },
         { date := some ⟨1, 15, 2024⟩, source := "NYPD", incident_id := "X" },
         { date := some ⟨1, 16, 2022⟩, source := "NYPD", incident_id := "X",
           description := "abcd" }])).length = 1 := by
  decide

/-! ### Claim C6 -/

/-- C6 fails on the pass-through clause: on text that matches no keyword set
the classifier returns the uppercased and whitespace-stripped raw text, not
the uppercased raw text verbatim. -/
theorem C6_counterexample :
    clean_bias_motivation (some " xyz ") = "XYZ" ∧ "XYZ" ≠ upperS " xyz " := by
  decide

/-- C6 amended: the classifier tests the case-insensitive keyword sets in the
fixed order given by the specification table, returns the first matching
category, returns the uppercased whitespace-stripped raw text when none
matches, and returns UNKNOWN on missing or empty input; the two scenario
inputs classify as stated. -/
theorem C6_amended :
    (∀ b : Option String, clean_bias_motivation b = clean_bias_spec b) ∧
    clean_bias_motivation (some "Anti-Semitic Graffiti") = "ANTI-JEWISH" ∧
    clean_bias_motivation (some "Islamophobic Assault") = "ANTI-ISLAMIC" ∧
    clean_bias_motivation none = "UNKNOWN" ∧
    clean_bias_motivation (some "") = "UNKNOWN" := by
  refine ⟨?_, by decide, by decide, rfl, by decide⟩
  intro b
  rcases b with _ | s
  · rfl
  · by_cases hs : s = ""
    · simp [clean_bias_motivation, clean_bias_spec, hs]
    · simp only [clean_bias_motivation, clean_bias_spec, if_neg hs, biasGroups, firstGroup]
      split_ifs <;> rfl

/-! ### Claim C8 -/

/-- C8: integration raises its fatal error exactly when every loaded source
table is empty; with at least one non-empty source it runs to a result. -/
theorem C8_fatal_iff_all_empty (E : Ext) (ex adl fbi : List Record) :
    (∃ msg, integrate_all_sources E ex adl fbi = Except.error msg) ↔
    (ex = [] ∧ adl = [] ∧ fbi = []) := by
  constructor
  · rintro ⟨msg, hmsg⟩
    by_contra hne
    rw [integrate_all_sources, if_neg hne] at hmsg
    rcases hd : [standardize_schemas ex, standardize_schemas adl,
        standardize_schemas fbi].filter (fun d => d ≠ []) with _ | ⟨d, _ | e⟩ <;>
      rw [hd] at hmsg
    · have hall := List.filter_eq_nil_iff.1 hd
      refine hne ⟨?_, ?_, ?_⟩
      · have := hall (standardize_schemas ex) (by simp)
        simpa [standardize_schemas] using this
      · have := hall (standardize_schemas adl) (by simp)
        simpa [standardize_schemas] using this
      · have := hall (standardize_schemas fbi) (by simp)
        simpa [standardize_schemas] using this
    · simp at hmsg
    · simp at hmsg
  · rintro ⟨h1, h2, h3⟩
    subst h1
    subst h2
    subst h3
    exact ⟨"No data sources available for integration",
      by rw [integrate_all_sources, if_pos ⟨rfl, rfl, rfl⟩]⟩

/-! ### Claim C7: invariants of the deduplication pass -/

theorem InvR_addRemoved {rs : List Record} {st : DedupState} {j : ℕ}
    (h : InvR rs st) (hj : datedAt rs j) :
    InvR rs ⟨st.removed ++ [j], st.compared⟩ := by
  refine ⟨?_, h.2⟩
  intro k hk
  rcases List.mem_append.1 hk with hk | hk
  · exact h.1 k hk
  · rw [List.mem_singleton.1 hk]
    exact hj

theorem InvR_addCompared {rs : List Record} {st : DedupState} {i j : ℕ}
    (h : InvR rs st) (hi : datedAt rs i) (hj : datedAt rs j) :
    InvR rs ⟨st.removed, st.compared ++ [(i, j)]⟩ := by
  refine ⟨h.1, ?_⟩
  intro q hq
  rcases List.mem_append.1 hq with hq | hq
  · exact h.2 q hq
  · rw [List.mem_singleton.1 hq]
    exact ⟨hi, hj⟩

theorem scanStep_inv (E : Ext) (rs : List Record) (i : ℕ) (a : Record) (da : Date)
    (ha : rs.get? i = some a) (hda : a.date = some da) :
    ∀ fuel j st, InvR rs st → InvR rs (scanStep E rs i a da fuel j st) := by
  have hdi : datedAt rs i := by
    intro s hs
    rw [ha] at hs
    rw [← Option.some_inj.1 hs, hda]
    simp
  intro fuel
  induction fuel with
  | zero =>
    intro j st h
    exact h
  | succ n ih =>
    intro j st h
    rw [scanStep]
    rcases hj : rs.get? j with _ | b
    · exact h
    have hdj : datedAt rs j → datedAt rs j := id
    by_cases hjr : j ∈ st.removed
    · simp only [if_pos hjr]
      exact ih (j + 1) st h
    simp only [if_neg hjr]
    rcases hbd : b.date with _ | db
    · exact ih (j + 1) st h
    have hdj : datedAt rs j := by
      intro s hs
      rw [hj] at hs
      rw [← Option.some_inj.1 hs, hbd]
      simp
    by_cases hgap : 30 < dayNum db - dayNum da
    · simp only [if_pos hgap]
      exact h
    simp only [if_neg hgap]
    by_cases hdup : is_duplicate E a b = true
    · simp only [if_pos hdup]
      rcases hv : resolve a b with _ | _
      · exact ih (j + 1) _ (InvR_addRemoved (InvR_addCompared h hdi hdj) hdj)
      · exact InvR_addRemoved (InvR_addCompared h hdi hdj) hdi
    · simp only [if_neg hdup]
      exact ih (j + 1) _ (InvR_addCompared h hdi hdj)

theorem passLoop_inv (E : Ext) (rs : List Record) :
    ∀ fuel i st, InvR rs st → InvR rs (passLoop E rs fuel i st) := by
  intro fuel
  induction fuel with
  | zero =>
    intro i st h
    exact h
  | succ n ih =>
    intro i st h
    rw [passLoop]
    rcases hi : rs.get? i with _ | a
    · exact h
    by_cases hir : i ∈ st.removed
    · simp only [if_pos hir]
      exact ih (i + 1) st h
    simp only [if_neg hir]
    rcases had : a.date with _ | da
    · exact ih (i + 1) st h
    · exact ih (i + 1) _ (scanStep_inv E rs i a da hi had rs.length (i + 1) st h)

theorem dedupRun_inv (E : Ext) (rs : List Record) : InvR rs (dedupRun E rs) := by
  refine passLoop_inv E rs rs.length 0 ⟨[], []⟩ ⟨?_, ?_⟩ <;> intro k hk <;> simp at hk

theorem keepAlive_mem :
    ∀ (rs : List Record) (start n : ℕ) (rem : List ℕ) (r : Record),
      rs.get? n = some r → (start + n) ∉ rem → r ∈ keepAlive start rem rs := by
  intro rs
  induction rs with
  | nil =>
    intro start n rem r h
    simp [List.get?] at h
  | cons x t ih =>
    intro start n rem r h hn
    cases n with
    | zero =>
      have hx : x = r := by
        simpa using h
      subst hx
      rw [keepAlive, if_neg (by simpa using hn)]
      exact List.mem_cons_self _ _
    | succ m =>
      have ht : t.get? m = some r := by
        simpa using h
      have hm : (start + 1) + m ∉ rem := by
        have : start + 1 + m = start + (m + 1) := by omega
        rw [this]
        exact hn
      have hmem := ih (start + 1) m rem r ht hm
      rw [keepAlive]
      by_cases hs : start ∈ rem
      · rwa [if_pos hs]
      · rw [if_neg hs]
        exact List.mem_cons_of_mem _ hmem

/-- C7: a record whose date never parsed is exempt from the pass: it is
present (unchanged) in the deduplicated output, no removed position ever
holds a dateless record, and `is_duplicate` is never evaluated with a
dateless record on either side. -/
theorem C7_unknown_date_exempt (E : Ext) (l : List Record) (r : Record)
    (hmem : r ∈ l) (hdate : r.date = none) :
    r ∈ advanced_deduplication E l ∧
    (∀ k ∈ (dedupRun E (sortRecs l)).removed, ∀ s,
      (sortRecs l).get? k = some s → s.date ≠ none) ∧
    (∀ q ∈ (dedupRun E (sortRecs l)).compared, ∀ s,
      (sortRecs l).get? q.1 = some s ∨ (sortRecs l).get? q.2 = some s → s.date ≠ none) := by
  have hinv := dedupRun_inv E (sortRecs l)
  refine ⟨?_, fun k hk => hinv.1 k hk, fun q hq s hs => ?_⟩
  · have hsorted : r ∈ sortRecs l := (List.perm_insertionSort _ l).mem_iff.2 hmem
    rcases List.mem_iff_get?.1 hsorted with ⟨n, hn⟩
    have hnot : n ∉ (dedupRun E (sortRecs l)).removed := by
      intro hcon
      exact hinv.1 n hcon r hn hdate
    exact keepAlive_mem (sortRecs l) 0 n _ r hn (by simpa using hnot)
  · rcases hs with hs | hs
    · exact (hinv.2 q hq).1 s hs
    · exact (hinv.2 q hq).2 s hs

/-! ### Claim C4 -/

theorem containsS_def (s t : String) : containsS s t = containsL s.data t.data := rfl

theorem contains_trim_low (d pl : List Char)
    (hup : containsL (upperL d) (upperL pl) = true)
    (hne : pl ≠ []) (hsp : ∀ c ∈ pl, isSpaceCh c = false) (hlow : lowerL pl = pl) :
    containsL (trimL (lowerL d)) pl = true := by
  have h2 := containsL_low_of_up d pl hup
  rw [hlow] at h2
  exact containsL_trim_of h2 hne hsp

theorem not_contains_corrected_side (d pl : List Char)
    (hne : pl ≠ []) (hsp : ∀ c ∈ pl, isSpaceCh c = false) (hlow : lowerL pl = pl)
    (hbase : containsL (trimL (lowerL d)) pl = false) :
    containsL (upperL (upperL d)) (upperL pl) = false := by
  rw [upperL_upperL]
  by_contra hc
  simp only [Bool.not_eq_false] at hc
  have h3 := contains_trim_low d pl hc hne hsp hlow
  rw [h3] at hbase
  exact absurd hbase (by simp)

theorem not_contains_clean_side (d pl : List Char)
    (hne : pl ≠ []) (hsp : ∀ c ∈ pl, isSpaceCh c = false) (hlow : lowerL pl = pl)
    (hbase : containsL (trimL (lowerL d)) pl = false) :
    containsL (trimL (upperL (upperL d))) (upperL pl) = false := by
  rw [upperL_upperL]
  by_contra hc
  simp only [Bool.not_eq_false] at hc
  have h2 := containsL_of_trim hc
  have h3 := contains_trim_low d pl h2 hne hsp hlow
  rw [h3] at hbase
  exact absurd hbase (by simp)

theorem clean_ne_AJ (s : String) (hs : ¬s = "")
    (hno : (["JEWISH", "JUDAISM", "ANTISEMIT", "ANTI-SEMIT"].any
      (fun t => containsS (trimS (upperS s)) t)) = false) :
    clean_bias_motivation (some s) ≠ "ANTI-JEWISH" := by
  intro he
  rw [clean_bias_motivation] at he
  rw [if_neg hs] at he
  simp only [hno] at he
  rw [if_neg (by simp)] at he
  split_ifs at he
  any_goals simp_all
  exact absurd hno.1 (by decide)

theorem labelSettle (L : String) (h1 : adl_incidents_corrected L = 1)
    (h2 : clean_bias_motivation (if L = "" then none else some L) ≠ "ANTI-JEWISH") :
    (adl_incidents_corrected L = 1.45 ↔
      clean_bias_motivation (if L = "" then none else some L) = "ANTI-JEWISH") ∧
    (adl_incidents_corrected L = 1.45 ∨ adl_incidents_corrected L = 1) := by
  refine ⟨⟨fun hc => ?_, fun hc => absurd hc h2⟩, Or.inr h1⟩
  rw [h1] at hc
  exact absurd hc (by norm_num)

theorem standardize_cases (raw : String) :
    standardize_bias_motivation (some raw) = "ANTI-JEWISH" ∨
    standardize_bias_motivation (some raw) ∈
      (["ANTI-ISLAMIC", "ANTI-BLACK", "ANTI-HISPANIC", "ANTI-ASIAN", "ANTI-WHITE",
        "ANTI-LGBTQ"] : List String) ∨
    (standardize_bias_motivation (some raw) = upperS raw ∧
      (["jewish", "antisemit", "anti-semit", "judaism"].any
        (fun t => containsS (trimS (lowerS raw)) t)) = false) := by
  simp only [standardize_bias_motivation]
  split_ifs with h1 h2 h3 h4 h5 h6 h7
  · exact Or.inl rfl
  · right
    left
    simp
  · right
    left
    simp
  · right
    left
    simp
  · right
    left
    simp
  · right
    left
    simp
  · right
    left
    simp
  · right
    right
    exact ⟨rfl, by simpa using h1⟩

/-- C4 fails on the code for FBI rows: the `load_fbi_data` transform sets
`incidents_corrected` to the monthly incident count, so an FBI row counting 5
incidents carries weight 5, not 1.0, although its source is the
federal-aggregate tier and its cleaned bias motivation is not ANTI-JEWISH. -/
theorem C4_counterexample :
    (load_fbi_row
      { date := some ⟨3, 1, 2023⟩, month_year := "03-2023", state := "CA",
        state_name := "California", incident_count := 5 }).source = "FBI" ∧
    clean_bias_motivation (load_fbi_row
      { date := some ⟨3, 1, 2023⟩, month_year := "03-2023", state := "CA",
        state_name := "California", incident_count := 5 }).bias_motivation ≠
      "ANTI-JEWISH" ∧
    (load_fbi_row
      { date := some ⟨3, 1, 2023⟩, month_year := "03-2023", state := "CA",
        state_name := "California", incident_count := 5 }).incidents_corrected ≠ 1 := by
  refine ⟨rfl, by decide, ?_⟩
  show ((5 : ℕ) : ℚ) ≠ 1
  norm_num

/-- C4 amended: an ADL-normalized record carries `incidents_corrected = 1.45`
exactly when its cleaned bias motivation is ANTI-JEWISH and `1.0` otherwise,
while every FBI row carries `incidents_corrected` equal to its monthly
incident count instead of `1.0`. -/
theorem C4_amended :
    (∀ inc : AdlIncident,
      ((convert_to_unified_schema inc).incidents_corrected = 1.45 ↔
        clean_bias_motivation (convert_to_unified_schema inc).bias_motivation =
          "ANTI-JEWISH") ∧
      ((convert_to_unified_schema inc).incidents_corrected = 1.45 ∨
        (convert_to_unified_schema inc).incidents_corrected = 1)) ∧
    (∀ row : FbiRow, (load_fbi_row row).source = "FBI" ∧
      (load_fbi_row row).incidents_corrected = (row.incident_count : ℚ)) := by
  refine ⟨?_, fun row => ⟨rfl, rfl⟩⟩
  intro inc
  simp only [convert_to_unified_schema]
  rcases hbf : inc.bias_field with _ | raw
  · exact labelSettle "" (by decide) (by decide)
  rcases standardize_cases raw with hstd | hstd | ⟨hstd, hno⟩
  · rw [hstd]
    have h145 : adl_incidents_corrected "ANTI-JEWISH" = 1.45 := by
      rw [adl_incidents_corrected, if_pos]
      exact ⟨by decide, Or.inl (by decide)⟩
    have hcl : clean_bias_motivation
        (if ("ANTI-JEWISH" : String) = "" then none else some "ANTI-JEWISH") =
        "ANTI-JEWISH" := by decide
    exact ⟨⟨fun _ => hcl, fun _ => h145⟩, Or.inl h145⟩
  · simp only [List.mem_cons, List.mem_singleton, List.not_mem_nil, or_false] at hstd
    rcases hstd with h | h | h | h | h | h <;> rw [h] <;>
      exact labelSettle _ (by decide) (by decide)
  · rw [hstd]
    have hJb : containsL (trimL (lowerL raw.data)) ("jewish".data) = false := by
      have := hno
      simp only [List.any_cons, List.any_nil, Bool.or_false, Bool.or_eq_false_iff] at this
      exact this.1
    have hAb : containsL (trimL (lowerL raw.data)) ("antisemit".data) = false := by
      have := hno
      simp only [List.any_cons, List.any_nil, Bool.or_false, Bool.or_eq_false_iff] at this
      exact this.2.1
    have hHb : containsL (trimL (lowerL raw.data)) ("anti-semit".data) = false := by
      have := hno
      simp only [List.any_cons, List.any_nil, Bool.or_false, Bool.or_eq_false_iff] at this
      exact this.2.2.1
    have hUb : containsL (trimL (lowerL raw.data)) ("judaism".data) = false := by
      have := hno
      simp only [List.any_cons, List.any_nil, Bool.or_false, Bool.or_eq_false_iff] at this
      exact this.2.2.2
    have hJs : containsS (upperS (upperS raw)) "JEWISH" = false := by
      show containsL (upperL (upperL raw.data)) ("JEWISH".data) = false
      have e : ("JEWISH".data : List Char) = upperL ("jewish".data) := by decide
      rw [e]
      exact not_contains_corrected_side raw.data _ (by decide) (by decide) (by decide) hJb
    have hAs : containsS (upperS (upperS raw)) "ANTISEMIT" = false := by
      show containsL (upperL (upperL raw.data)) ("ANTISEMIT".data) = false
      have e : ("ANTISEMIT".data : List Char) = upperL ("antisemit".data) := by decide
      rw [e]
      exact not_contains_corrected_side raw.data _ (by decide) (by decide) (by decide) hAb
    have hcor1 : adl_incidents_corrected (upperS raw) = 1 := by
      rw [adl_incidents_corrected, if_neg]
      rintro ⟨_, hc | hc⟩
      · rw [hJs] at hc
        exact absurd hc (by simp)
      · rw [hAs] at hc
        exact absurd hc (by simp)
    have hclean : clean_bias_motivation
        (if upperS raw = "" then none else some (upperS raw)) ≠ "ANTI-JEWISH" := by
      by_cases hur : upperS raw = ""
      · rw [if_pos hur]
        decide
      · rw [if_neg hur]
        refine clean_ne_AJ (upperS raw) hur ?_
        simp only [List.any_cons, List.any_nil, Bool.or_false, Bool.or_eq_false_iff]
        refine ⟨?_, ?_, ?_, ?_⟩
        · show containsL (trimL (upperL (upperL raw.data))) ("JEWISH".data) = false
          have e : ("JEWISH".data : List Char) = upperL ("jewish".data) := by decide
          rw [e]
          exact not_contains_clean_side raw.data _ (by decide) (by decide) (by decide) hJb
        · show containsL (trimL (upperL (upperL raw.data))) ("JUDAISM".data) = false
          have e : ("JUDAISM".data : List Char) = upperL ("judaism".data) := by decide
          rw [e]
          exact not_contains_clean_side raw.data _ (by decide) (by decide) (by decide) hUb
        · show containsL (trimL (upperL (upperL raw.data))) ("ANTISEMIT".data) = false
          have e : ("ANTISEMIT".data : List Char) = upperL ("antisemit".data) := by decide
          rw [e]
          exact not_contains_clean_side raw.data _ (by decide) (by decide) (by decide) hAb
        · show containsL (trimL (upperL (upperL raw.data))) ("ANTI-SEMIT".data) = false
          have e : ("ANTI-SEMIT".data : List Char) = upperL ("anti-semit".data) := by decide
          rw [e]
          exact not_contains_clean_side raw.data _ (by decide) (by decide) (by decide) hHb
    exact labelSettle (upperS raw) hcor1 hclean

/-- Closed instance of C7 on a one-record table with unknown date. -/
theorem C7_unknown_date_exempt_witness :
    ({ date := none, source := "NYPD", description := "kept" } : Record) ∈
      advanced_deduplication extZero
        [{ date := none, source := "NYPD", description := "kept" }] ∧
    (∀ k ∈ (dedupRun extZero (sortRecs
        [{ date := none, source := "NYPD", description := "kept" }])).removed, ∀ s,
      (sortRecs [{ date := none, source := "NYPD", description := "kept" }]).get? k =
        some s → s.date ≠ none) ∧
    (∀ q ∈ (dedupRun extZero (sortRecs
        [{ date := none, source := "NYPD", description := "kept" }])).compared, ∀ s,
      (sortRecs [{ date := none, source := "NYPD", description := "kept" }]).get? q.1 =
          some s ∨
        (sortRecs [{ date := none, source := "NYPD", description := "kept" }]).get? q.2 =
          some s → s.date ≠ none) :=
  C7_unknown_date_exempt extZero _ _ (by decide) rfl

end JHT
